import Mathlib

/-!
Verification of the CPMpy or-tools solver interface
(`cpmpy/solver_interfaces/ortools_python.py`) and the cppy variable
extractor (`cppy/model_tools/get_variables.py`).

The Python sources are shallowly embedded: expression trees become
inductive types, the or-tools `CpModel` becomes an explicit state of
created native variables and posted native constraints, and fallible
translation steps return `Except`.  Functions keep the source names
where possible (`convert_subexpr`, `post_constraint`, `make_model`,
`solve`, `get_variables`, `uniquify`, `vars_expr`).
-/

deriving instance DecidableEq for Except

/- ===================================================================
   Part 1: cppy/model_tools/get_variables.py
   =================================================================== -/

/- Expression model of the cppy modeling layer, as dispatched on by
`vars_expr`: variables (`NumVarImpl`), plain numbers (not `Expression`
instances), left/right classes (`MathOperator`, `Comparison`),
elems-classes (`Sum`, `WeightedSum`, `BoolOperator`), args-classes
(`GlobalConstraint`, `Objective`) and plain Python lists. Variables are
identified by a natural number standing for Python object identity. -/
mutual
inductive CppyExpr where
  | num (n : Int)
  | var (v : Nat)
  | mathOp (nm : String) (left right : CppyExpr)
  | cmp (nm : String) (left right : CppyExpr)
  | sumC (elems : CppyList)
  | wsum (weights : List Int) (elems : CppyList)
  | boolOp (nm : String) (elems : CppyList)
  | globalC (nm : String) (args : CppyList)
  | objC (args : CppyList)
  | lstC (items : CppyList)
deriving DecidableEq
inductive CppyList where
  | nil
  | cons (e : CppyExpr) (es : CppyList)
deriving DecidableEq
end

/-- Model container of cppy: an ordered constraint list and an
objective part (empty list when there is no objective; the source
guards both walks with a truthiness test, which skips exactly the
empty case). -/
structure CppyModel where
  constraints : List CppyExpr
  objective : List CppyExpr

/- vars_expr from get_variables.py: left-to-right walk collecting the
variables of an expression. Lists take the iterable branch; a number is
not an `Expression` and contributes nothing; a variable returns itself;
left/right, elems and args classes recurse into their children. -/
mutual
def vars_expr : CppyExpr → List Nat
  | .num _ => []
  | .var v => [v]
  | .mathOp _ l r => vars_expr l ++ vars_expr r
  | .cmp _ l r => vars_expr l ++ vars_expr r
  | .sumC es => vars_exprList es
  | .wsum _ es => vars_exprList es
  | .boolOp _ es => vars_exprList es
  | .globalC _ as => vars_exprList as
  | .objC as => vars_exprList as
  | .lstC items => vars_exprList items
def vars_exprList : CppyList → List Nat
  | .nil => []
  | .cons e es => vars_expr e ++ vars_exprList es
end

/-- uniquify from get_variables.py, inner loop: keep an element when it
is not in the `seen` set, adding it to `seen` as a side effect of the
test. -/
def uniquifyGo {α : Type} [DecidableEq α] (seen : List α) : List α → List α
  | [] => []
  | x :: xs => if x ∈ seen then uniquifyGo seen xs else x :: uniquifyGo (x :: seen) xs

/-- uniquify from get_variables.py: remove duplicates from a list while
preserving order, starting from an empty `seen` set. -/
def uniquify {α : Type} [DecidableEq α] (l : List α) : List α :=
  uniquifyGo [] l

/-- The full left-to-right variable walk of a cppy model: all
constraints first, then the objective part, duplicates kept. -/
def cppyWalk (m : CppyModel) : List Nat :=
  (m.constraints.map vars_expr).flatten ++ (m.objective.map vars_expr).flatten

/-- get_variables from get_variables.py: accumulate `vars_expr` over
the constraints, then over the objective, and uniquify the result. -/
def get_variables (m : CppyModel) : List Nat :=
  uniquify (cppyWalk m)

/-- Duplicate removal keeping the first occurrence of each element, as
the specification words it: walk the list and append an element to the
output exactly when it has not been emitted before. Stated from the
specification for comparison with `uniquify`. -/
def firstOccurrenceDedup {α : Type} [DecidableEq α] (l : List α) : List α :=
  l.foldl (fun acc x => if x ∈ acc then acc else acc ++ [x]) []

/- ===================================================================
   Part 2: cpmpy/solver_interfaces/ortools_python.py, data model
   =================================================================== -/

/-- Kind of a modeling-layer decision variable: `BoolVarImpl` or
`IntVarImpl`. -/
inductive VKind where
  | bool
  | int
deriving DecidableEq

/-- A modeling-layer decision variable: identity, kind, declared bounds
`lb`/`ub` and name. Two equal records model the same Python variable
object. -/
structure VarDecl where
  vid : Nat
  kind : VKind
  lb : Int
  ub : Int
  vname : String
deriving DecidableEq

/- Expression model of the cpmpy modeling layer as dispatched on by
`convert_subexpr` and `post_constraint`: numbers, variable references,
negated boolean views (`NegBoolView` holding `_bv`), n-ary operators,
binary comparisons, element indexing (`args[0]` the array, `args[1]`
the index) and named global constraints carrying an optional
decomposition (the result of their `decompose()` method). Python lists
of expressions are expressions as well. -/
mutual
inductive Expression where
  | const (n : Int)
  | var (v : VarDecl)
  | negView (v : VarDecl)
  | op (nm : String) (args : ExprList)
  | comp (nm : String) (lhs rhs : Expression)
  | element (arr idx : Expression)
  | glob (nm : String) (args : ExprList) (dec : Decomp)
  | lst (items : ExprList)
deriving DecidableEq
inductive ExprList where
  | nil
  | cons (e : Expression) (es : ExprList)
deriving DecidableEq
inductive Decomp where
  | noDecomp
  | withDecomp (cs : ExprList)
deriving DecidableEq
end

/- Native or-tools expression handles, as produced by the converter:
integer constants, variable handles, `.Not()`, the combinators built by
the overloaded Python operators, and sequences. `conj`/`disj` are the
native conjunction/disjunction the `all`/`any` combiner builds. -/
mutual
inductive NExpr where
  | intConst (n : Int)
  | varH (h : Nat)
  | notE (a : NExpr)
  | conj (args : NList)
  | disj (args : NList)
  | bor (a b : NExpr)
  | negE (a : NExpr)
  | absE (a : NExpr)
  | subE (a b : NExpr)
  | mulE (a b : NExpr)
  | divE (a b : NExpr)
  | modE (a b : NExpr)
  | powE (a b : NExpr)
  | sumE (args : NList)
  | rel (nm : String) (a b : NExpr)
  | lstN (items : NList)
deriving DecidableEq
inductive NList where
  | nil
  | cons (e : NExpr) (es : NList)
deriving DecidableEq
end

/-- Turn an embedded native sequence into a Lean list. -/
def nlistToList : NList → List NExpr
  | .nil => []
  | .cons e es => e :: nlistToList es

/-- Errors raised by the translation: `NotImplementedError` carrying an
optional payload expression, `NotImplementedError` on an unknown native
status, a plain `Exception` with a message, `KeyError` on a missing
registry entry, `NameError` on an unbound Python name, plus
`AttributeError`, `IndexError`, the `ValueError` of `min()`/`max()` on
an empty sequence, and a recursion-depth bound for the decomposition
recursion. -/
inductive TransError where
  | notImplemented (e : Option Expression)
  | notImplementedStatus (s : String)
  | exceptionMsg (msg : String)
  | keyError (v : VarDecl)
  | nameError (nm : String)
  | attributeError
  | indexError
  | valueErrorEmpty
  | recursionLimit
deriving DecidableEq

/-- A native or-tools variable as created by `NewBoolVar` /
`NewIntVar`: its handle, its domain `[lo, hi]` and its name. -/
structure NativeVar where
  handle : Nat
  lo : Int
  hi : Int
  nm : String
deriving DecidableEq

/-- Native constraints posted on the or-tools `CpModel`. -/
inductive NativeCon where
  | boolOr (lits : List NExpr)
  | addC (e : NExpr)
  | addEnforced (e cond : NExpr)
  | implication (a b : NExpr)
  | boolXor (args : NList)
  | elementC (idx arr : NExpr) (target : Option NExpr)
  | allDifferent (args : NList)
  | minEquality (target : Nat) (args : NList)
  | maxEquality (target : Nat) (args : NList)
deriving DecidableEq

/-- The mutable per-solve state of the interface: the native variables
created so far, the posted constraints, the variable registry
`varmap` (cppy variable to native handle) and the recorded objective
with its direction. -/
structure OrtState where
  nvars : List NativeVar
  cons : List NativeCon
  varmap : List (VarDecl × Nat)
  obj : Option (NExpr × Bool)
deriving DecidableEq

/-- The fresh state built at the start of `make_model`. -/
def emptyOrt : OrtState := ⟨[], [], [], none⟩

/-- Registry lookup, `self.varmap[var]`: first match wins, which gives
the Python dict behaviour because insertions prepend. -/
def lookupVar : List (VarDecl × Nat) → VarDecl → Option Nat
  | [], _ => none
  | (w, h) :: rest, v => if v = w then some h else lookupVar rest v

/-- Append posted constraints to the model state. -/
def addCons (st : OrtState) (cs : List NativeCon) : OrtState :=
  { st with cons := st.cons ++ cs }

/-- NewBoolVar: create a native boolean variable named after the
source variable. Modelled from the spec: the native boolean handle has
domain exactly the pair of truth values, here `[0, 1]`. -/
def newBoolVar (nm : String) (st : OrtState) : Nat × OrtState :=
  (st.nvars.length, { st with nvars := st.nvars ++ [⟨st.nvars.length, 0, 1, nm⟩] })

/-- NewIntVar: create a native integer variable with the given bounds
and name. -/
def newIntVar (lo hi : Int) (nm : String) (st : OrtState) : Nat × OrtState :=
  (st.nvars.length, { st with nvars := st.nvars ++ [⟨st.nvars.length, lo, hi, nm⟩] })

/-- Create the native handle matching a variable kind and bounds and
store the mapping (the shared body of lines 105-109 and 288-292 of
ortools_python.py). -/
def registerVar (st : OrtState) (v : VarDecl) : OrtState :=
  match v.kind with
  | .bool =>
      let p := newBoolVar v.vname st
      { p.2 with varmap := (v, p.1) :: p.2.varmap }
  | .int =>
      let p := newIntVar v.lb v.ub v.vname st
      { p.2 with varmap := (v, p.1) :: p.2.varmap }

/-- The initial registration loop of `make_model` (lines 104-109): one
native variable per model variable, no membership test (the input list
is already uniquified). -/
def initRegister (st : OrtState) : List VarDecl → OrtState
  | [] => st
  | v :: vs => initRegister (registerVar st v) vs

/-- The registration loop of the decomposition branch of
`post_constraint` (lines 285-292): a variable already in the registry
keeps its handle, a new one gets a native handle by kind and bounds. -/
def registerNewVars (st : OrtState) : List VarDecl → OrtState
  | [] => st
  | v :: vs =>
      match lookupVar st.varmap v with
      | some _ => registerNewVars st vs
      | none => registerNewVars (registerVar st v) vs

/-- The native variable record the specification prescribes for a
source variable registered with handle `h`: domain exactly `[0, 1]`
for a boolean, exactly `[lb, ub]` for an integer, named after the
variable. -/
def expectedVar (v : VarDecl) (h : Nat) : NativeVar :=
  match v.kind with
  | .bool => ⟨h, 0, 1, v.vname⟩
  | .int => ⟨h, v.lb, v.ub, v.vname⟩

/- ===================================================================
   Part 3: convert_subexpr (lines 131-198)
   =================================================================== -/

/-- The comparison names handled by the translation. -/
def relNames : List String := ["==", "!=", "<=", "<", ">=", ">"]

/- convert_subexpr from ortools_python.py (lines 131-198): pure
recursive translation of a subexpression to a native value or
expression. Constants map to themselves; lists are converted
element-wise; a negated view is the complement of the registry handle
of its underlying variable; a variable is its registry handle;
operators convert all arguments and combine them; comparisons convert
both sides and apply the native relation; everything else raises
NotImplementedError carrying the offending expression (line 197).
The combination of converted arguments under the names `and` and `or`
is modelled from the spec: the `all`/`any` used at lines 153 and 155
resolve through the star imports of the module (not among the sources)
and, per the spec, build the native conjunction respectively
disjunction of the argument handles. -/
mutual
def convert_subexpr (vm : List (VarDecl × Nat)) : Expression → Except TransError NExpr
  | .const n => .ok (.intConst n)
  | .lst items => do
      let xs ← convertList vm items
      .ok (.lstN xs)
  | .negView v =>
      match lookupVar vm v with
      | some h => .ok (.notE (.varH h))
      | none => .error (.keyError v)
  | .var v =>
      match lookupVar vm v with
      | some h => .ok (.varH h)
      | none => .error (.keyError v)
  | .op nm args => do
      let cargs ← convertList vm args
      if nm = "and" then .ok (.conj cargs)
      else if nm = "or" then .ok (.disj cargs)
      else if nm = "xor" then
        .error (.exceptionMsg "or-tools translation: XOR probably illegal as subexpression")
      else if nm = "->" then
        match cargs with
        | .cons a (.cons b _) => .ok (.bor (.notE a) b)
        | _ => .error .indexError
      else if nm = "-" then
        match cargs with
        | .cons a _ => .ok (.negE a)
        | _ => .error .indexError
      else if nm = "abs" then
        match cargs with
        | .cons a _ => .ok (.absE a)
        | _ => .error .indexError
      else if nm = "sub" then
        match cargs with
        | .cons a (.cons b _) => .ok (.subE a b)
        | _ => .error .indexError
      else if nm = "mul" then
        match cargs with
        | .cons a (.cons b _) => .ok (.mulE a b)
        | _ => .error .indexError
      else if nm = "div" then
        match cargs with
        | .cons a (.cons b _) => .ok (.divE a b)
        | _ => .error .indexError
      else if nm = "mod" then
        match cargs with
        | .cons a (.cons b _) => .ok (.modE a b)
        | _ => .error .indexError
      else if nm = "pow" then
        match cargs with
        | .cons a (.cons b _) => .ok (.powE a b)
        | _ => .error .indexError
      else if nm = "sum" then .ok (.sumE cargs)
      else .error (.notImplemented (some (.op nm args)))
  | .comp nm l r => do
      let lv ← convert_subexpr vm l
      let rv ← convert_subexpr vm r
      if relNames.contains nm then .ok (.rel nm lv rv)
      else .error (.notImplemented (some (.comp nm l r)))
  | .element a0 a1 => .error (.notImplemented (some (.element a0 a1)))
  | .glob nm args dec => .error (.notImplemented (some (.glob nm args dec)))
def convertList (vm : List (VarDecl × Nat)) : ExprList → Except TransError NList
  | .nil => .ok .nil
  | .cons e es => do
      let x ← convert_subexpr vm e
      let xs ← convertList vm es
      .ok (.cons x xs)
end

/- ===================================================================
   Part 4: post_constraint (lines 200-297)
   =================================================================== -/

/-- View a converted side of a comparison as a sequence: a native
sequence yields its items, a scalar yields a singleton. Modelled from
the spec: supports the cyclic pairing of `zipcycle`, whose source is
not among the files. -/
def toSeq : NExpr → List NExpr
  | .lstN items => nlistToList items
  | e => [e]

/-- zipcycle. Modelled from the spec: pair up the elements of the two
(possibly scalar) sides cyclically, the shorter side repeating, so that
a length-1 side is reused against every element of the other side and
two scalars give a single pair. Its source module is not among the
files. -/
def zipcycle (a b : NExpr) : List (NExpr × NExpr) :=
  let xs := toSeq a
  let ys := toSeq b
  if xs.length = 0 ∨ ys.length = 0 then []
  else
    (List.range (max xs.length ys.length)).map
      (fun i => (xs.getD (i % xs.length) (.intConst 0), ys.getD (i % ys.length) (.intConst 0)))

/-- The `isinstance(expr.args[0], BoolVarImpl)` test of line 243: a
plain boolean variable (a negated view is a `BoolVarImpl` in the
modeling layer as well). -/
def isBoolVarExpr : Expression → Bool
  | .var v => v.kind == .bool
  | .negView _ => true
  | _ => false

/- vars_expr of the cpmpy model_tools, applied to the flattened
decomposition at line 284. Modelled from the spec: the cpmpy copy of
the extractor is not among the sources; it mirrors the cppy
implementation in Part 1, walking expressions left to right and
collecting variables. -/
mutual
def ortVarsExpr : Expression → List VarDecl
  | .const _ => []
  | .var v => [v]
  | .negView v => [v]
  | .op _ args => ortVarsList args
  | .comp _ l r => ortVarsExpr l ++ ortVarsExpr r
  | .element a0 a1 => ortVarsExpr a0 ++ ortVarsExpr a1
  | .glob _ args _ => ortVarsList args
  | .lst items => ortVarsList items
def ortVarsList : ExprList → List VarDecl
  | .nil => []
  | .cons e es => ortVarsExpr e ++ ortVarsList es
end

/-- flatten_constraint, applied to a decomposition at line 281.
Modelled from the spec: the flattening module is not among the sources
and the spec fixes no algorithm for it; decompositions are taken to be
already flat, so it is the identity. -/
def flatten_constraint (cs : ExprList) : ExprList := cs

/-- Turn an embedded expression sequence into a Lean list. -/
def exprListToList : ExprList → List Expression
  | .nil => []
  | .cons e es => e :: exprListToList es

/- post_constraint from ortools_python.py (lines 200-297), with a
recursion-depth bound for the decomposition recursion (the Python
source recurses unboundedly; the spec flags termination as an open
question). Base cases post unit clauses; comparisons post one
relational constraint per zipcycle pair; `->` posts a native
implication when the antecedent is a plain boolean variable and
otherwise `Add(args[0]).OnlyEnforceIf(args[1])` exactly as line 249
does; `xor` posts a native AddBoolXor; other operators post the
converted subexpression; Element posts `AddElement(args[1], args[0],
None)` exactly as line 260 does; `alldifferent` posts natively; the
`min`/`max` branch evaluates a generator whose condition reads the
unbound name `arg` (lines 269-270), which raises NameError on the
first element and ValueError when the argument list is empty; an
unrecognized global constraint with a decomposition flattens it,
registers its new variables and posts it recursively, and without one
raises NotImplementedError whose payload is the absent decomposition
`dec` (line 297), i.e. `none`. A top-level constant, list or integer
variable reaches the attribute accesses of the global-constraint
branch and raises AttributeError. -/
def post_constraint : Nat → OrtState → Expression → Except TransError OrtState
  | _, st, .negView v =>
      match lookupVar st.varmap v with
      | some h => .ok (addCons st [.boolOr [.notE (.varH h)]])
      | none => .error (.keyError v)
  | _, st, .var v =>
      if v.kind = .bool then
        match lookupVar st.varmap v with
        | some h => .ok (addCons st [.boolOr [.varH h]])
        | none => .error (.keyError v)
      else .error .attributeError
  | _, st, .comp nm l r => do
      let lv ← convert_subexpr st.varmap l
      let rv ← convert_subexpr st.varmap r
      .ok (addCons st
        (if relNames.contains nm then
          (zipcycle lv rv).map (fun p => .addC (.rel nm p.1 p.2))
        else []))
  | _, st, .op nm args =>
      if nm = "->" then do
        let cargs ← convertList st.varmap args
        match args, cargs with
        | .cons a0 _, .cons c0 (.cons c1 _) =>
          if isBoolVarExpr a0 then .ok (addCons st [.implication c0 c1])
          else .ok (addCons st [.addEnforced c0 c1])
        | _, _ => .error .indexError
      else if nm = "xor" then do
        let cargs ← convertList st.varmap args
        .ok (addCons st [.boolXor cargs])
      else do
        let ce ← convert_subexpr st.varmap (.op nm args)
        .ok (addCons st [.addC ce])
  | _, st, .element a0 a1 => do
      let c0 ← convert_subexpr st.varmap a0
      let c1 ← convert_subexpr st.varmap a1
      .ok (addCons st [.elementC c1 c0 none])
  | fuel, st, .glob nm args dec =>
      if nm = "alldifferent" then do
        let cargs ← convertList st.varmap args
        .ok (addCons st [.allDifferent cargs])
      else if nm = "min" ∨ nm = "max" then do
        let cargs ← convertList st.varmap args
        match cargs with
        | .nil => .error .valueErrorEmpty
        | .cons _ _ => .error (.nameError "arg")
      else
        match dec with
        | .noDecomp => .error (.notImplemented none)
        | .withDecomp cs =>
          match fuel with
          | 0 => .error .recursionLimit
          | f + 1 =>
            let flatdec := flatten_constraint cs
            let st1 := registerNewVars st (ortVarsList flatdec)
            postDecomposed f st1 flatdec
  | _, _, .const _ => .error .attributeError
  | _, _, .lst _ => .error .attributeError
where postDecomposed (f : Nat) : OrtState → ExprList → Except TransError OrtState
  | st, .nil => .ok st
  | st, .cons c cs => do
      let st2 ← post_constraint f st c
      postDecomposed f st2 cs

/- ===================================================================
   Part 5: make_model and solve (lines 52-125)
   =================================================================== -/

/-- The cpmpy model consumed by the interface: an ordered constraint
list, an optional objective and its direction. -/
structure CPModel where
  constraints : List Expression
  objective : Option Expression
  objective_max : Bool

/-- get_variables of the cpmpy model_tools, used at lines 58 and 103.
Modelled from the spec: the cpmpy copy is not among the sources; it
mirrors the cppy implementation in Part 1 (walk the constraints, then
the objective, uniquify preserving first occurrence). -/
def ortGetVariables (m : CPModel) : List VarDecl :=
  uniquify
    ((m.constraints.map ortVarsExpr).flatten ++
      (match m.objective with
       | none => []
       | some o => ortVarsExpr o))

/-- Post every top-level constraint of the flattened model in order
(lines 112-113). -/
def postAll (fuel : Nat) : OrtState → List Expression → Except TransError OrtState
  | st, [] => .ok st
  | st, c :: cs => do
      let st2 ← post_constraint fuel st c
      postAll fuel st2 cs

/-- make_model from ortools_python.py (lines 88-125): flatten the
model, create one native variable per model variable, post every
constraint, then record the converted objective and its direction.
flatten_model is not among the sources and the spec fixes no algorithm
for it, so the flattening is a parameter. -/
def make_model (fuel : Nat) (flattenModel : CPModel → CPModel) (m : CPModel) :
    Except TransError OrtState := do
  let flat := flattenModel m
  let st1 := initRegister emptyOrt (ortGetVariables flat)
  let st2 ← postAll fuel st1 flat.constraints
  match flat.objective with
  | none => .ok st2
  | some o => do
      let ce ← convert_subexpr st2.varmap o
      .ok { st2 with obj := some (ce, flat.objective_max) }

/-- The native or-tools result codes of `CpSolver.Solve`. -/
inductive OrtStatus where
  | UNKNOWN
  | MODEL_INVALID
  | FEASIBLE
  | INFEASIBLE
  | OPTIMAL
deriving DecidableEq

/-- The generic exit statuses of the interface layer. -/
inductive ExitStatus where
  | FEASIBLE
  | OPTIMAL
  | UNSATISFIABLE
deriving DecidableEq

/-- Status translation of solve (lines 70-77): the three known native
codes map to the generic taxonomy, anything else raises
NotImplementedError. -/
def translateStatus : OrtStatus → Except TransError ExitStatus
  | .FEASIBLE => .ok .FEASIBLE
  | .OPTIMAL => .ok .OPTIMAL
  | .INFEASIBLE => .ok .UNSATISFIABLE
  | _ => .error (.notImplementedStatus "my_status")

/-- The write-back loop of solve (lines 82-83): store the solver value
of the registry handle of each original variable on the variable, raising
KeyError if a variable has no registry entry. -/
def writeBack (vm : List (VarDecl × Nat)) (value : Nat → Int) :
    List VarDecl → (VarDecl → Option Int) → Except TransError (VarDecl → Option Int)
  | [], vals => .ok vals
  | v :: vs, vals =>
      match lookupVar vm v with
      | none => .error (.keyError v)
      | some h => writeBack vm value vs (fun w => if w = v then some (value h) else vals w)

/-- solve from ortools_python.py (lines 52-85): snapshot the original
variables before any translation, build the native model, run the
native search (whose outcome is the parameters `ortStatus` and
`ortValue`), translate the status (raising on an unknown code) and,
exactly when the native status is FEASIBLE or OPTIMAL, write the
solved values back onto the snapshotted original variables. The value
store is a map from variables to their `_value` slot. -/
def solve (fuel : Nat) (flattenModel : CPModel → CPModel) (ortStatus : OrtStatus)
    (ortValue : Nat → Int) (m : CPModel) (vals : VarDecl → Option Int) :
    Except TransError (ExitStatus × (VarDecl → Option Int)) :=
  let originalVars := ortGetVariables m
  match make_model fuel flattenModel m with
  | .error e => .error e
  | .ok st =>
    match translateStatus ortStatus with
    | .error e => .error e
    | .ok es =>
      if ortStatus = .FEASIBLE ∨ ortStatus = .OPTIMAL then
        match writeBack st.varmap ortValue originalVars vals with
        | .error e => .error e
        | .ok vals2 => .ok (es, vals2)
      else .ok (es, vals)

/- ===================================================================
   Part 6: concrete instances used to evaluate the translation
   =================================================================== -/

/-- An integer variable x with domain [0, 9]. -/
def xD : VarDecl := ⟨0, .int, 0, 9, "x"⟩

/-- An integer variable y with domain [0, 9]. -/
def yD : VarDecl := ⟨1, .int, 0, 9, "y"⟩

/-- A boolean variable b. -/
def bD : VarDecl := ⟨2, .bool, 0, 1, "b"⟩

/-- A boolean variable b2. -/
def b2D : VarDecl := ⟨3, .bool, 0, 1, "b2"⟩

/-- An integer variable z with domain [0, 2]. -/
def zD : VarDecl := ⟨4, .int, 0, 2, "z"⟩

/-- An integer variable only introduced by flattening, never part of
the original model. -/
def auxD : VarDecl := ⟨9, .int, 0, 5, "aux1"⟩

/-- A model state with x, y, b, b2, z registered (handles 0..4). -/
def demoState : OrtState := initRegister emptyOrt [xD, yD, bD, b2D, zD]

/-- A model with the single constraint x == 3 and no objective. -/
def c7model : CPModel := ⟨[.comp "==" (.var xD) (.const 3)], none, false⟩

/-- A flattening that introduces the auxiliary variable `auxD` through
an extra flat constraint. -/
def c7flatten (mm : CPModel) : CPModel :=
  ⟨mm.constraints ++ [.comp "==" (.var auxD) (.const 1)], mm.objective, mm.objective_max⟩

/-- The value store produced by solving `c7model` under `c7flatten`
with native outcome OPTIMAL and every native value equal to 3. -/
def c7vals : VarDecl → Option Int :=
  match solve 1 c7flatten .OPTIMAL (fun _ => 3) c7model (fun _ => none) with
  | .ok p => p.2
  | .error _ => fun _ => none

/-- A length-1 vectorized comparison side. -/
def c8lhs : Expression := .lst (.cons (.var xD) .nil)

/-- A length-3 vectorized comparison side. -/
def c8rhs : Expression :=
  .lst (.cons (.var xD) (.cons (.var yD) (.cons (.var zD) .nil)))

/-- A cppy model whose left-to-right variable walk is [1, 2, 2, 1, 3]:
two constraints mentioning variables 1 and 2, and an objective
mentioning variable 3. -/
def c10demo : CppyModel :=
  ⟨[.mathOp "+" (.var 1) (.var 2), .cmp "==" (.var 2) (.var 1)],
   [.objC (.cons (.var 3) .nil)]⟩

/- ===================================================================
   Part 7: helper lemmas
   =================================================================== -/

/-- Membership in the uniquify loop: an element survives exactly when
it occurs in the input and was not already seen. -/
theorem uniquifyGo_mem {α : Type} [DecidableEq α] :
    ∀ (l seen : List α) (x : α), x ∈ uniquifyGo seen l ↔ x ∈ l ∧ x ∉ seen := by
  intro l
  induction l with
  | nil => intro seen x; simp [uniquifyGo]
  | cons y ys ih =>
    intro seen x
    by_cases hy : y ∈ seen
    · rw [uniquifyGo, if_pos hy, ih]
      constructor
      · rintro ⟨hx, hs⟩
        exact ⟨List.mem_cons_of_mem _ hx, hs⟩
      · rintro ⟨hx, hs⟩
        rcases List.mem_cons.mp hx with rfl | hx
        · exact absurd hy hs
        · exact ⟨hx, hs⟩
    · rw [uniquifyGo, if_neg hy]
      constructor
      · intro hx
        rcases List.mem_cons.mp hx with rfl | hx
        · exact ⟨List.mem_cons_self _ _, hy⟩
        · rcases (ih _ _).mp hx with ⟨h1, h2⟩
          refine ⟨List.mem_cons_of_mem _ h1, fun hs => h2 (List.mem_cons_of_mem _ hs)⟩
      · rintro ⟨hx, hs⟩
        rcases List.mem_cons.mp hx with rfl | hx
        · exact List.mem_cons_self _ _
        · by_cases hxy : x = y
          · subst hxy; exact List.mem_cons_self _ _
          · exact List.mem_cons_of_mem _
              ((ih _ _).mpr ⟨hx, fun h => (List.mem_cons.mp h).elim hxy hs⟩)

/-- Occurrence count in the uniquify loop: one for each unseen element
of the input, zero otherwise. -/
theorem uniquifyGo_count {α : Type} [DecidableEq α] :
    ∀ (l seen : List α) (x : α),
      (uniquifyGo seen l).count x = if x ∈ l ∧ x ∉ seen then 1 else 0 := by
  intro l
  induction l with
  | nil => intro seen x; simp [uniquifyGo]
  | cons y ys ih =>
    intro seen x
    by_cases hy : y ∈ seen
    · rw [uniquifyGo, if_pos hy, ih]
      by_cases hxy : x = y
      · subst hxy
        simp [hy]
      · simp [List.mem_cons, hxy]
    · rw [uniquifyGo, if_neg hy, List.count_cons, ih]
      by_cases hxy : x = y
      · subst hxy
        simp [hy, List.mem_cons]
      · simp [List.mem_cons, hxy, Ne.symm hxy]

/-- The fold of the specification-style first-occurrence dedup agrees
with the uniquify loop whenever the accumulator and the seen set hold
the same elements. -/
theorem foldl_dedup_eq_uniquifyGo {α : Type} [DecidableEq α] :
    ∀ (l acc seen : List α), (∀ y, y ∈ acc ↔ y ∈ seen) →
      l.foldl (fun acc x => if x ∈ acc then acc else acc ++ [x]) acc =
        acc ++ uniquifyGo seen l := by
  intro l
  induction l with
  | nil => intro acc seen _; simp [uniquifyGo]
  | cons x xs ih =>
    intro acc seen hequiv
    by_cases hx : x ∈ seen
    · rw [List.foldl_cons, if_pos ((hequiv x).mpr hx), uniquifyGo, if_pos hx]
      exact ih acc seen hequiv
    · rw [List.foldl_cons, if_neg (fun h => hx ((hequiv x).mp h)), uniquifyGo, if_neg hx]
      rw [ih (acc ++ [x]) (x :: seen) (by intro y; simp [hequiv y, or_comm])]
      simp

/-- The write-back loop overwrites exactly the listed variables with a
native solver value and leaves every other slot unchanged. -/
theorem writeBack_spec (vm : List (VarDecl × Nat)) (oval : Nat → Int) :
    ∀ (vs : List VarDecl) (vals vals2 : VarDecl → Option Int),
      writeBack vm oval vs vals = .ok vals2 →
      ∀ v, (v ∈ vs → ∃ h, vals2 v = some (oval h)) ∧ (v ∉ vs → vals2 v = vals v) := by
  intro vs
  induction vs with
  | nil =>
    intro vals vals2 hw v
    rw [writeBack] at hw
    cases hw
    exact ⟨fun h => absurd h (List.not_mem_nil v), fun _ => rfl⟩
  | cons w ws ih =>
    intro vals vals2 hw v
    rw [writeBack] at hw
    cases hlk : lookupVar vm w with
    | none => rw [hlk] at hw; cases hw
    | some h0 =>
      rw [hlk] at hw
      have hrec := ih _ _ hw
      constructor
      · intro hv
        rcases List.mem_cons.mp hv with rfl | hv
        · by_cases hvw : v ∈ ws
          · exact (hrec v).1 hvw
          · refine ⟨h0, ((hrec v).2 hvw).trans ?_⟩
            simp
        · exact (hrec v).1 hv
      · intro hv
        have hne : v ≠ w := fun h => hv (h ▸ List.mem_cons_self _ _)
        have hnw : v ∉ ws := fun h => hv (List.mem_cons_of_mem _ h)
        refine ((hrec v).2 hnw).trans ?_
        simp [hne]

/-- Registering one variable prepends its mapping and appends the
prescribed native variable record. -/
theorem registerVar_varmap (st : OrtState) (v : VarDecl) :
    (registerVar st v).varmap = (v, st.nvars.length) :: st.varmap := by
  cases hk : v.kind <;> simp [registerVar, hk, newBoolVar, newIntVar]

/-- Registering one variable creates exactly the native record the
specification prescribes for its kind and bounds. -/
theorem registerVar_nvars (st : OrtState) (v : VarDecl) :
    (registerVar st v).nvars = st.nvars ++ [expectedVar v st.nvars.length] := by
  cases hk : v.kind <;> simp [registerVar, hk, newBoolVar, newIntVar, expectedVar]

/-- The initial registration loop does not change the registry entry of
a variable outside its input list. -/
theorem initRegister_lookup_preserved :
    ∀ (vs : List VarDecl) (st : OrtState) (v : VarDecl), v ∉ vs →
      lookupVar (initRegister st vs).varmap v = lookupVar st.varmap v := by
  intro vs
  induction vs with
  | nil => intro st v _; rfl
  | cons w ws ih =>
    intro st v hv
    have hne : v ≠ w := fun h => hv (h ▸ List.mem_cons_self _ _)
    rw [initRegister, ih _ _ (fun h => hv (List.mem_cons_of_mem _ h))]
    rw [registerVar_varmap, lookupVar, if_neg hne]

/-- The initial registration loop only adds native variable records. -/
theorem initRegister_nvars_mono :
    ∀ (vs : List VarDecl) (st : OrtState) (nv : NativeVar), nv ∈ st.nvars →
      nv ∈ (initRegister st vs).nvars := by
  intro vs
  induction vs with
  | nil => intro st nv h; exact h
  | cons w ws ih =>
    intro st nv h
    rw [initRegister]
    exact ih _ _ (by rw [registerVar_nvars]; exact List.mem_append_left _ h)

/-- After the initial scan over a duplicate-free variable list, every
listed variable maps to a handle whose native record has exactly the
prescribed domain and name. -/
theorem initRegister_registered :
    ∀ (vs : List VarDecl) (st : OrtState) (v : VarDecl), vs.Nodup → v ∈ vs →
      ∃ h, lookupVar (initRegister st vs).varmap v = some h ∧
        expectedVar v h ∈ (initRegister st vs).nvars := by
  intro vs
  induction vs with
  | nil => intro st v _ hv; exact absurd hv (List.not_mem_nil v)
  | cons w ws ih =>
    intro st v hnd hv
    rcases List.mem_cons.mp hv with rfl | hv
    · refine ⟨st.nvars.length, ?_, ?_⟩
      · rw [initRegister,
          initRegister_lookup_preserved ws _ _ (List.nodup_cons.mp hnd).1,
          registerVar_varmap, lookupVar, if_pos rfl]
      · rw [initRegister]
        exact initRegister_nvars_mono ws _ _
          (by rw [registerVar_nvars]; exact List.mem_append_right _ (List.mem_singleton.mpr rfl))
    · exact ih _ _ (List.nodup_cons.mp hnd).2 hv

/-- The decomposition-time registration keeps the existing handle of a
variable already in the registry. -/
theorem registerNewVars_keeps :
    ∀ (vs : List VarDecl) (st : OrtState) (v : VarDecl) (h : Nat),
      lookupVar st.varmap v = some h →
      lookupVar (registerNewVars st vs).varmap v = some h := by
  intro vs
  induction vs with
  | nil => intro st v h hl; exact hl
  | cons w ws ih =>
    intro st v h hl
    rw [registerNewVars]
    cases hw : lookupVar st.varmap w with
    | some h2 => exact ih _ _ _ hl
    | none =>
      have hne : v ≠ w := fun he => by rw [he, hw] at hl; cases hl
      refine ih _ _ _ ?_
      rw [registerVar_varmap, lookupVar, if_neg hne]
      exact hl

/-- The decomposition-time registration only adds native records. -/
theorem registerNewVars_nvars_mono :
    ∀ (vs : List VarDecl) (st : OrtState) (nv : NativeVar), nv ∈ st.nvars →
      nv ∈ (registerNewVars st vs).nvars := by
  intro vs
  induction vs with
  | nil => intro st nv h; exact h
  | cons w ws ih =>
    intro st nv h
    rw [registerNewVars]
    cases hw : lookupVar st.varmap w with
    | some h2 => exact ih _ _ h
    | none => exact ih _ _ (by rw [registerVar_nvars]; exact List.mem_append_left _ h)

/-- The decomposition-time registration gives every variable of its
list that was absent from the registry a handle whose native record has
exactly the prescribed domain and name. -/
theorem registerNewVars_registers :
    ∀ (vs : List VarDecl) (st : OrtState) (v : VarDecl),
      lookupVar st.varmap v = none → v ∈ vs →
      ∃ h, lookupVar (registerNewVars st vs).varmap v = some h ∧
        expectedVar v h ∈ (registerNewVars st vs).nvars := by
  intro vs
  induction vs with
  | nil => intro st v _ hv; exact absurd hv (List.not_mem_nil v)
  | cons w ws ih =>
    intro st v hnone hv
    rw [registerNewVars]
    rcases List.mem_cons.mp hv with rfl | hv
    · rw [hnone]
      refine ⟨st.nvars.length, ?_, ?_⟩
      · exact registerNewVars_keeps ws _ _ _
          (by rw [registerVar_varmap, lookupVar, if_pos rfl])
      · exact registerNewVars_nvars_mono ws _ _
          (by rw [registerVar_nvars]; exact List.mem_append_right _ (List.mem_singleton.mpr rfl))
    · cases hw : lookupVar st.varmap w with
      | some h2 => exact ih _ _ hnone hv
      | none =>
        by_cases hvw : v = w
        · subst hvw
          refine ⟨st.nvars.length, ?_, ?_⟩
          · exact registerNewVars_keeps ws _ _ _
              (by rw [registerVar_varmap, lookupVar, if_pos rfl])
          · exact registerNewVars_nvars_mono ws _ _
              (by rw [registerVar_nvars]; exact List.mem_append_right _ (List.mem_singleton.mpr rfl))
        · refine ih _ _ ?_ hv
          rw [registerVar_varmap, lookupVar, if_neg hvw]
          exact hnone

/-- A converted side that is not a native sequence is viewed as a
singleton sequence. -/
theorem toSeq_of_not_lstN (e : NExpr) (h : ∀ xs, e ≠ .lstN xs) : toSeq e = [e] := by
  cases e <;> first | rfl | exact absurd rfl (h _)

/-- Mapping a function over positions zero to length recovers a map
over the list itself. -/
theorem map_range_getD {α β : Type} (f : α → β) (L : List α) (d : α) :
    (List.range L.length).map (fun i => f (L.getD i d)) = L.map f := by
  apply List.ext_getElem
  · simp
  · intro i h1 h2
    simp only [List.getElem_map, List.getElem_range]
    rw [List.getD_eq_getElem]

/- ===================================================================
   Part 8: claims
   =================================================================== -/

/-- C1: evaluation of the two implication branches of post_constraint
(lines 241-249). With a plain boolean antecedent b the code posts the
native implication from b to the consequent, as the claim states. With
a non-atomic antecedent x less-than y, however, the code posts
`Add(args[0]).OnlyEnforceIf(args[1])`: the ANTECEDENT (the relation on
handles 0 and 1) becomes the posted constraint and the CONSEQUENT
(handle 2) the enforcement condition — the reverse of the claim, which
says the consequent is the constraint added and the antecedent the
enforcement condition. -/
theorem c1_implication_branches :
    post_constraint 1 demoState
        (.op "->" (.cons (.comp "<" (.var xD) (.var yD)) (.cons (.var bD) .nil))) =
      .ok (addCons demoState [.addEnforced (.rel "<" (.varH 0) (.varH 1)) (.varH 2)]) ∧
    post_constraint 1 demoState
        (.op "->" (.cons (.var bD) (.cons (.var b2D) .nil))) =
      .ok (addCons demoState [.implication (.varH 2) (.varH 3)]) :=
  ⟨rfl, rfl⟩

/-- C3: evaluating the min/max branch of post_constraint (lines
267-275) on the global constraints min(x, y) and max(x, y). The bound
computation evaluates a generator reading the unbound name `arg`, so the branch
raises NameError before any auxiliary variable is created or any
min-equality or max-equality is posted, contrary to the claim. -/
theorem c3_minmax_name_error :
    post_constraint 1 demoState
        (.glob "min" (.cons (.var xD) (.cons (.var yD) .nil)) .noDecomp) =
      .error (.nameError "arg") ∧
    post_constraint 1 demoState
        (.glob "max" (.cons (.var xD) (.cons (.var yD) .nil)) .noDecomp) =
      .error (.nameError "arg") :=
  ⟨rfl, rfl⟩

/-- C4: evaluating the Element branch of post_constraint (lines
256-260) on the constraint [x, y][z]. The posted native element
constraint links the index (handle 4) and the array (handles 0 and 1),
but its value slot is `None` — the result value is NOT linked,
contrary to the claim that all three parts are linked. -/
theorem c4_element_value_none :
    post_constraint 1 demoState
        (.element (.lst (.cons (.var xD) (.cons (.var yD) .nil))) (.var zD)) =
      .ok (addCons demoState
        [.elementC (.varH 4) (.lstN (.cons (.varH 0) (.cons (.varH 1) .nil))) none]) :=
  rfl

/-- C5: the two untranslatable-construct error sites. In
convert_subexpr (line 197) the raised NotImplementedError carries the
offending expression, as the claim states. In post_constraint (line
297), for an unrecognized global constraint whose decomposition is
absent, the raised NotImplementedError carries `dec` — which is None
at that point — and NOT the offending expression, contrary to the
claim. -/
theorem c5_error_payloads :
    convert_subexpr demoState.varmap (.element (.var xD) (.var yD)) =
      .error (.notImplemented (some (.element (.var xD) (.var yD)))) ∧
    post_constraint 1 demoState (.glob "mystery" (.cons (.var xD) .nil) .noDecomp) =
      .error (.notImplemented none) :=
  ⟨rfl, rfl⟩

/-- C6: the status translation of solve (lines 68-77) maps FEASIBLE to
FEASIBLE, OPTIMAL to OPTIMAL and INFEASIBLE to UNSATISFIABLE, and
raises NotImplementedError on every other native result code instead
of coercing it to a known status. -/
theorem c6_status_translation :
    translateStatus .FEASIBLE = .ok .FEASIBLE ∧
    translateStatus .OPTIMAL = .ok .OPTIMAL ∧
    translateStatus .INFEASIBLE = .ok .UNSATISFIABLE ∧
    ∀ s : OrtStatus, s ≠ .FEASIBLE → s ≠ .OPTIMAL → s ≠ .INFEASIBLE →
      translateStatus s = .error (.notImplementedStatus "my_status") := by
  refine ⟨rfl, rfl, rfl, fun s h1 h2 h3 => ?_⟩
  cases s
  · rfl
  · rfl
  · exact absurd rfl h1
  · exact absurd rfl h3
  · exact absurd rfl h2

/-- C6 witness: the unknown native code UNKNOWN is translated to a
raised error. -/
theorem c6_status_translation_witness :
    translateStatus .UNKNOWN = .error (.notImplementedStatus "my_status") :=
  c6_status_translation.2.2.2 .UNKNOWN (by decide) (by decide) (by decide)

/-- C2: whenever the arguments of an operator expression all convert,
convert_subexpr maps an `and` expression to the native conjunction of
the recursively converted arguments and an `or` expression to their
native disjunction (native combinator terms over the converted
handles, not host truth values). -/
theorem c2_and_or_native (vm : List (VarDecl × Nat)) (args : ExprList) (cargs : NList)
    (h : convertList vm args = .ok cargs) :
    convert_subexpr vm (.op "and" args) = .ok (.conj cargs) ∧
    convert_subexpr vm (.op "or" args) = .ok (.disj cargs) := by
  constructor <;> · rw [convert_subexpr, h]; rfl

/-- C2 witness: converting an `and` and an `or` over the arguments
b and not b yields the native conjunction and disjunction of the
converted handles. -/
theorem c2_and_or_native_witness :
    convert_subexpr demoState.varmap
        (.op "and" (.cons (.var bD) (.cons (.negView bD) .nil))) =
      .ok (.conj (.cons (.varH 2) (.cons (.notE (.varH 2)) .nil))) ∧
    convert_subexpr demoState.varmap
        (.op "or" (.cons (.var bD) (.cons (.negView bD) .nil))) =
      .ok (.disj (.cons (.varH 2) (.cons (.notE (.varH 2)) .nil))) :=
  c2_and_or_native demoState.varmap _ _ rfl

/-- C8: a top-level comparison whose two sides convert posts one
relational constraint per zipcycle pair of the converted sides; the
pairing is cyclic, so a length-1 sequence against a length-n sequence
gives the n pairs that reuse the single element, and two scalar sides
give exactly one pair, hence exactly one posted relational
constraint. -/
theorem zipcycle_single (x : NExpr) (ys : NList) :
    zipcycle (.lstN (.cons x .nil)) (.lstN ys) =
      (nlistToList ys).map (fun y => (x, y)) := by
  rw [zipcycle]
  simp only [toSeq]
  have hx1 : nlistToList (NList.cons x .nil) = [x] := rfl
  rw [hx1]
  cases hL : nlistToList ys with
  | nil => rfl
  | cons z zs =>
    rw [if_neg (by simp)]
    apply List.ext_getElem
    · simp only [List.length_map, List.length_range, List.length_cons,
        List.length_nil, List.length_singleton]
      omega
    · intro i h1 h2
      simp only [List.getElem_map, List.getElem_range, List.length_singleton]
      have hi : i < (z :: zs).length := by simpa using h2
      rw [Nat.mod_one, Nat.mod_eq_of_lt hi, List.getD_eq_getElem,
        List.getD_eq_getElem]
      · rfl
      · simp

/-- C8: a top-level comparison whose two sides convert posts one
relational constraint per zipcycle pair of the converted sides; the
pairing is cyclic, so a length-1 sequence against a length-n sequence
gives the n pairs that reuse the single element, and two scalar sides
give exactly one pair, hence exactly one posted relational
constraint. -/
theorem c8_comparison_cyclic (fuel : Nat) (st : OrtState) (nm : String)
    (l r : Expression) (ca cb : NExpr)
    (hnm : relNames.contains nm = true)
    (hl : convert_subexpr st.varmap l = .ok ca)
    (hr : convert_subexpr st.varmap r = .ok cb) :
    post_constraint fuel st (.comp nm l r) =
      .ok (addCons st ((zipcycle ca cb).map (fun p => .addC (.rel nm p.1 p.2)))) ∧
    (∀ x ys, ca = .lstN (.cons x .nil) → cb = .lstN ys →
      zipcycle ca cb = (nlistToList ys).map (fun y => (x, y))) ∧
    ((∀ xs, ca ≠ .lstN xs) → (∀ ys, cb ≠ .lstN ys) →
      zipcycle ca cb = [(ca, cb)]) := by
  refine ⟨?_, ?_, ?_⟩
  · rw [post_constraint, hl, hr]
    simp only [hnm]
    rfl
  · rintro x ys rfl rfl
    exact zipcycle_single x ys
  · intro hca hcb
    rw [zipcycle, toSeq_of_not_lstN ca hca, toSeq_of_not_lstN cb hcb]
    rfl

/-- C8 witness: comparing the length-1 side [x] against the length-3
side [x, y, z] posts exactly three relational constraints, each
reusing the single converted element of the left side; the pairing
equation and the scalar-scalar case are instantiated as well. -/
theorem c8_comparison_cyclic_witness :
    post_constraint 1 demoState (.comp "<=" c8lhs c8rhs) =
      .ok (addCons demoState
        [.addC (.rel "<=" (.varH 0) (.varH 0)),
         .addC (.rel "<=" (.varH 0) (.varH 1)),
         .addC (.rel "<=" (.varH 0) (.varH 4))]) ∧
    zipcycle (.lstN (.cons (.varH 0) .nil))
        (.lstN (.cons (.varH 0) (.cons (.varH 1) (.cons (.varH 4) .nil)))) =
      [(.varH 0, .varH 0), (.varH 0, .varH 1), (.varH 0, .varH 4)] ∧
    zipcycle (.varH 0) (.varH 1) = [(.varH 0, .varH 1)] := by
  have h := c8_comparison_cyclic 1 demoState "<=" c8lhs c8rhs
    (.lstN (.cons (.varH 0) .nil))
    (.lstN (.cons (.varH 0) (.cons (.varH 1) (.cons (.varH 4) .nil))))
    rfl rfl rfl
  have h2 := c8_comparison_cyclic 1 demoState "<=" (.var xD) (.var yD)
    (.varH 0) (.varH 1) rfl rfl rfl
  refine ⟨h.1.trans rfl, (h.2.1 _ _ rfl rfl).trans rfl,
    (h2.2.2 (fun xs hx => by cases hx) (fun ys hy => by cases hy)).trans rfl⟩

/-- C9: every variable registered in the variable registry gets a
native handle whose record matches its kind and declared bounds — a
boolean gets domain [0, 1], an integer gets [lb, ub] — and is named
after the variable (the record prescribed by `expectedVar`), during
the initial scan of make_model (over the duplicate-free uniquified
variable list) as well as during constraint decomposition; and a
variable already present in the registry keeps its existing handle. -/
theorem c9_variable_registry :
    (∀ (vs : List VarDecl) (v : VarDecl), vs.Nodup → v ∈ vs →
      (lookupVar (initRegister emptyOrt vs).varmap v).isSome = true ∧
      ∀ h, lookupVar (initRegister emptyOrt vs).varmap v = some h →
        expectedVar v h ∈ (initRegister emptyOrt vs).nvars) ∧
    (∀ (st : OrtState) (vs : List VarDecl) (v : VarDecl) (h : Nat),
      lookupVar st.varmap v = some h →
      lookupVar (registerNewVars st vs).varmap v = some h) ∧
    (∀ (st : OrtState) (vs : List VarDecl) (v : VarDecl),
      lookupVar st.varmap v = none → v ∈ vs →
      (lookupVar (registerNewVars st vs).varmap v).isSome = true ∧
      ∀ h, lookupVar (registerNewVars st vs).varmap v = some h →
        expectedVar v h ∈ (registerNewVars st vs).nvars) := by
  refine ⟨?_, fun st vs v h hl => registerNewVars_keeps vs st v h hl, ?_⟩
  · intro vs v hnd hv
    obtain ⟨h, hl, hm⟩ := initRegister_registered vs emptyOrt v hnd hv
    refine ⟨by rw [hl]; rfl, fun h2 hl2 => ?_⟩
    rw [hl] at hl2
    cases hl2
    exact hm
  · intro st vs v hnone hv
    obtain ⟨h, hl, hm⟩ := registerNewVars_registers vs st v hnone hv
    refine ⟨by rw [hl]; rfl, fun h2 hl2 => ?_⟩
    rw [hl] at hl2
    cases hl2
    exact hm

/-- C9 witness: in the initial scan over [x, b] the boolean b gets
handle 1 with the prescribed record (domain [0, 1], named b); in a
decomposition-time registration over the already-registered x its
handle 0 is kept; and registering the new variable aux1 there creates
the prescribed integer record. -/
theorem c9_variable_registry_witness :
    ((lookupVar (initRegister emptyOrt [xD, bD]).varmap bD).isSome = true ∧
      expectedVar bD 1 ∈ (initRegister emptyOrt [xD, bD]).nvars) ∧
    lookupVar (registerNewVars demoState [xD]).varmap xD = some 0 ∧
    ((lookupVar (registerNewVars demoState [auxD]).varmap auxD).isSome = true ∧
      expectedVar auxD 5 ∈ (registerNewVars demoState [auxD]).nvars) :=
  ⟨⟨(c9_variable_registry.1 [xD, bD] bD (by decide) (by decide)).1,
    (c9_variable_registry.1 [xD, bD] bD (by decide) (by decide)).2 1 rfl⟩,
   c9_variable_registry.2.1 demoState [xD] xD 0 rfl,
   ⟨(c9_variable_registry.2.2 demoState [auxD] auxD rfl (by decide)).1,
    (c9_variable_registry.2.2 demoState [auxD] auxD rfl (by decide)).2 5 rfl⟩⟩

/-- C7: on a successful solve, write-back happens exactly when the
resulting status is FEASIBLE or OPTIMAL, and it writes a native solver
value onto exactly the variables of the original model as snapshotted
before translation — any variable outside that snapshot (in
particular any auxiliary variable introduced by flattening or
decomposition) keeps its previous value slot; for the remaining
success status (UNSATISFIABLE) every slot is left untouched. -/
theorem c7_writeback_frame (fuel : Nat) (fm : CPModel → CPModel) (os : OrtStatus)
    (oval : Nat → Int) (m : CPModel) (vals : VarDecl → Option Int)
    (es : ExitStatus) (vals2 : VarDecl → Option Int)
    (hs : solve fuel fm os oval m vals = .ok (es, vals2)) :
    ((es = .FEASIBLE ∨ es = .OPTIMAL) →
      (∀ v, v ∈ ortGetVariables m → ∃ h, vals2 v = some (oval h)) ∧
      (∀ v, v ∉ ortGetVariables m → vals2 v = vals v)) ∧
    (es = .UNSATISFIABLE → ∀ v, vals2 v = vals v) := by
  simp only [solve] at hs
  cases hmk : make_model fuel fm m with
  | error e =>
    simp only [hmk] at hs
    exact Except.noConfusion hs
  | ok st =>
    cases os with
    | UNKNOWN =>
      simp only [hmk, translateStatus] at hs
      exact Except.noConfusion hs
    | MODEL_INVALID =>
      simp only [hmk, translateStatus] at hs
      exact Except.noConfusion hs
    | FEASIBLE =>
      simp only [hmk, translateStatus] at hs
      rw [if_pos (Or.inl trivial)] at hs
      cases hwb : writeBack st.varmap oval (ortGetVariables m) vals with
      | error e2 =>
        simp only [hwb] at hs
        exact Except.noConfusion hs
      | ok v2 =>
        simp only [hwb] at hs
        injection hs with h1
        injection h1 with he hv
        subst he
        subst hv
        have hspec := writeBack_spec st.varmap oval (ortGetVariables m) vals v2 hwb
        refine ⟨fun _ => ⟨fun v hvm => (hspec v).1 hvm, fun v hvm => (hspec v).2 hvm⟩,
          fun habs => ?_⟩
        cases habs
    | OPTIMAL =>
      simp only [hmk, translateStatus] at hs
      rw [if_pos (Or.inr trivial)] at hs
      cases hwb : writeBack st.varmap oval (ortGetVariables m) vals with
      | error e2 =>
        simp only [hwb] at hs
        exact Except.noConfusion hs
      | ok v2 =>
        simp only [hwb] at hs
        injection hs with h1
        injection h1 with he hv
        subst he
        subst hv
        have hspec := writeBack_spec st.varmap oval (ortGetVariables m) vals v2 hwb
        refine ⟨fun _ => ⟨fun v hvm => (hspec v).1 hvm, fun v hvm => (hspec v).2 hvm⟩,
          fun habs => ?_⟩
        cases habs
    | INFEASIBLE =>
      simp only [hmk, translateStatus] at hs
      rw [if_neg (by rintro (h | h) <;> cases h)] at hs
      injection hs with h1
      injection h1 with he hv
      subst he
      subst hv
      refine ⟨fun habs => ?_, fun _ v => rfl⟩
      rcases habs with h | h <;> cases h

/-- C7 witness: solving the model whose single constraint is x == 3
under a flattening that adds a constraint on the auxiliary variable
aux1, with native outcome OPTIMAL and native values 3, writes 3 onto
the original variable x and leaves the slot of aux1 untouched even
though aux1 was registered and constrained in the native model. -/
theorem c7_writeback_frame_witness :
    c7vals xD = some 3 ∧ c7vals auxD = none := by
  have hs : solve 1 c7flatten .OPTIMAL (fun _ => 3) c7model (fun _ => none) =
      .ok (.OPTIMAL, c7vals) := rfl
  have h := c7_writeback_frame 1 c7flatten .OPTIMAL (fun _ => 3) c7model
    (fun _ => none) .OPTIMAL c7vals hs
  obtain ⟨hm, hfr⟩ := h.1 (Or.inr rfl)
  constructor
  · obtain ⟨hh, hv⟩ := hm xD (by decide)
    exact hv
  · exact hfr auxD (by decide)

/-- C10: get_variables returns the left-to-right walk of the
constraints followed by the objective with duplicates removed
preserving first occurrence: it equals the specification-style
first-occurrence dedup of the walk, every variable reachable from the
model occurs in it exactly once, and it contains exactly the reachable
variables. -/
theorem c10_get_variables_first_occurrence (m : CppyModel) :
    get_variables m = firstOccurrenceDedup (cppyWalk m) ∧
    (∀ v, v ∈ cppyWalk m → (get_variables m).count v = 1) ∧
    (∀ v, v ∈ get_variables m ↔ v ∈ cppyWalk m) := by
  refine ⟨?_, ?_, ?_⟩
  · rw [get_variables, uniquify, firstOccurrenceDedup,
      foldl_dedup_eq_uniquifyGo (cppyWalk m) [] [] (by intro y; exact Iff.rfl)]
    rfl
  · intro v hv
    rw [get_variables, uniquify, uniquifyGo_count]
    simp [hv]
  · intro v
    rw [get_variables, uniquify, uniquifyGo_mem]
    simp

/-- C10 witness: for the model whose walk is [1, 2, 2, 1, 3] the
extractor returns [1, 2, 3] — the first-occurrence dedup — and the
duplicated variable 2 occurs exactly once. -/
theorem c10_get_variables_first_occurrence_witness :
    get_variables c10demo = firstOccurrenceDedup (cppyWalk c10demo) ∧
    (get_variables c10demo).count 2 = 1 ∧
    get_variables c10demo = [1, 2, 3] :=
  ⟨(c10_get_variables_first_occurrence c10demo).1,
   (c10_get_variables_first_occurrence c10demo).2.1 2 (by decide),
   rfl⟩
